import Mathlib

/-!
# Verification of the `DirContents` scanning core (src/dir_contents.rs)

Shallow embedding of the directory-scanning pipeline of `dir_contents.rs`:

* `DirContents::new` builds, from a recursive, contents-first directory walk,
  the list of "album directories": directories holding at least one file the
  music classifier accepts, with their partitioned and sorted file lists.
* `same_album_title` / `same_artists` compute cross-file consistency facts.

The repository modules `music_file.rs`, `ordinary_file.rs`, `util.rs` and the
external `walkdir` crate are collaborators of `dir_contents.rs`; they are
modelled here from the specification (each such definition carries a
`Modelled from the spec:` comment).  Filesystem effects are made explicit:

* the raw `walkdir` stream becomes a `List (Except String DirEntry)`
  (`Err` items model traversal errors);
* each visited directory carries the outcome of `fs::read_dir` at its path
  as a field (`Except String (List (Except String FsDirEntry))`: the outer
  `Except` is the `read_dir` call, the inner ones are per-entry results);
* a Rust panic (a reachable `unwrap` on an `Err`) is modelled by `Option`:
  `none` means the scan aborts with a panic.
-/

deriving instance DecidableEq for Except

/-- Modelled from the spec: the tag record produced by the external metadata
reader (`MusicMetadata`, module `music_file.rs`, not under `src/`).  §3 lists
album and artist plus further fields the reader exposes, e.g. track number
and title; §4.2 needs track and title for the sort order. -/
structure MusicMetadata where
  album : String
  artist : String
  track : Option Nat
  title : Option String
deriving DecidableEq, Repr

/-- The outcome of one `fs::read_dir` entry, as far as `dir_contents.rs`
consumes it: its file name, whether `path().is_file()` holds, the verdict of
the music classifier `util::is_music_file` (modelled from the spec as an
opaque boolean attribute of the entry: extension allow-list, total, no side
effects), and what the external metadata reader would return for it. -/
structure FsDirEntry where
  name : String
  is_file : Bool
  is_music : Bool
  metadata : Option MusicMetadata
deriving DecidableEq, Repr

/-- Struct `MusicFile` (module `music_file.rs`): a filesystem entry plus the optional
parsed metadata. -/
structure MusicFile where
  file_name : String
  music_metadata : Option MusicMetadata
deriving DecidableEq, Repr

/-- Modelled from the spec: `MusicFile::new` attempts metadata extraction via
the external reader; success stores `Some(metadata)`, failure stores `None`
(§4.2).  The reader's outcome for the entry is the `metadata` field. -/
def MusicFile.new (e : FsDirEntry) : MusicFile :=
  { file_name := e.name, music_metadata := e.metadata }

/-- Struct `OrdinaryFile` (module `ordinary_file.rs`): trivial wrapper around a
non-music regular file. -/
structure OrdinaryFile where
  file_name : String
deriving DecidableEq, Repr

/-- Modelled from the spec: `OrdinaryFile::new` is a trivial wrapper with no
validation and no failure mode (§4.3). -/
def OrdinaryFile.new (e : FsDirEntry) : OrdinaryFile :=
  { file_name := e.name }

/-- Title component of the sort key: the metadata title when present,
otherwise the file name (§4.2 "otherwise title or filename"). -/
def MusicFile.title_or_name (m : MusicFile) : String :=
  (m.music_metadata.bind (fun md => md.title)).getD m.file_name

/-- Modelled from the spec: the comparison key of `MusicFile::sort_func`
(§4.2), lexicographic with priority (1) track number if present (files with
a track number order before those without, by track), (2) title or filename,
(3) filename as final tie-break. -/
def MusicFile.sortKey (m : MusicFile) : Lex (Nat × Lex (Nat × Lex (String × String))) :=
  match m.music_metadata.bind (fun md => md.track) with
  | some t => toLex (0, toLex (t, toLex (m.title_or_name, m.file_name)))
  | none => toLex (1, toLex (0, toLex (m.title_or_name, m.file_name)))

/-- Modelled from the spec: `MusicFile::sort_func` (module `music_file.rs`,
not under `src/`), the deterministic total comparator of §4.2, realised as
the comparison of the lexicographic sort keys. -/
def MusicFile.sort_func (left right : MusicFile) : Ordering :=
  if left.sortKey < right.sortKey then Ordering.lt
  else if left.sortKey = right.sortKey then Ordering.eq
  else Ordering.gt

/-- The non-strict order induced by `MusicFile::sort_func`, exactly the
"comparator does not say greater" reading `Vec::sort_by` establishes between
adjacent elements of its output. -/
def sortLe (a b : MusicFile) : Prop :=
  MusicFile.sort_func a b ≠ Ordering.gt

instance : DecidableRel sortLe := fun a b =>
  inferInstanceAs (Decidable (MusicFile.sort_func a b ≠ Ordering.gt))

theorem sortLe_iff (a b : MusicFile) : sortLe a b ↔ a.sortKey ≤ b.sortKey := by
  unfold sortLe MusicFile.sort_func
  split
  · simp only [ne_eq, reduceCtorEq, not_false_iff, true_iff]
    exact le_of_lt (by assumption)
  · split
    · simp only [ne_eq, reduceCtorEq, not_false_iff, true_iff]
      exact le_of_eq (by assumption)
    · simp only [ne_eq, not_true_eq_false, false_iff, not_le]
      rcases lt_trichotomy a.sortKey b.sortKey with h | h | h
      · exact absurd h (by assumption)
      · exact absurd h (by assumption)
      · exact h

instance : IsTotal MusicFile sortLe :=
  ⟨fun a b => by
    rw [sortLe_iff, sortLe_iff]
    exact le_total a.sortKey b.sortKey⟩

instance : IsTrans MusicFile sortLe :=
  ⟨fun a b c hab hbc => by
    rw [sortLe_iff] at hab hbc ⊢
    exact le_trans hab hbc⟩

/-- One directory entry as the walk (`walkdir::DirEntry`) hands it to
`dir_contents.rs`: its path, its `file_type().is_dir()` flag, and — making
the filesystem explicit — the result `fs::read_dir(path)` would produce:
`Except.error` when the listing call itself fails, otherwise the entry
stream, each item itself fallible. -/
structure DirEntry where
  path : String
  is_dir : Bool
  readdir : Except String (List (Except String FsDirEntry))
deriving DecidableEq, Repr

/-- Struct `DirContents`: the snapshot of one qualifying directory. -/
structure DirContents where
  dir_entry : DirEntry
  music_files : List MusicFile
  ordinary_files : List OrdinaryFile
deriving DecidableEq, Repr

/-- The album list collected by `same_album_title` (dir_contents.rs:27-32):
`self.music_files.iter().filter_map(|m| m.music_metadata.as_ref()).map(|m| &m.album)`. -/
def DirContents.albums (self : DirContents) : List String :=
  (self.music_files.filterMap (fun m => m.music_metadata)).map (fun md => md.album)

/-- Method `DirContents::same_album_title` (dir_contents.rs:26-45): if the album list
is non-empty, return its first element provided every element equals it,
otherwise `None`. -/
def DirContents.same_album_title (self : DirContents) : Option String :=
  match self.albums with
  | [] => none
  | first :: rest =>
    if (first :: rest).all (fun album => album == first) then some first else none

/-- The artist list collected by `same_artists` (dir_contents.rs:49-54). -/
def DirContents.artists (self : DirContents) : List String :=
  (self.music_files.filterMap (fun m => m.music_metadata)).map (fun md => md.artist)

/-- Method `DirContents::same_artists` (dir_contents.rs:48-68): `true` exactly when
the artist list is non-empty and every element equals its first. -/
def DirContents.same_artists (self : DirContents) : Bool :=
  match self.artists with
  | [] => false
  | first :: rest => (first :: rest).all (fun artist => artist == first)

/-- The stage `readdir.unwrap().filter(|e| e.as_ref().unwrap().path().is_file()).map(|e| e.unwrap())`
of `get_dirs_with_music` (dir_contents.rs:124-127): keep the regular files of
the entry stream.  The closure of `filter` calls `unwrap` on each per-entry
result before testing `is_file`, so an `Err` item anywhere in the stream is a
panic — modelled by `none`. -/
def list_regular_files : List (Except String FsDirEntry) → Option (List FsDirEntry)
  | [] => some []
  | Except.error _ :: _ => none
  | Except.ok e :: rest =>
    if e.is_file then (list_regular_files rest).map (fun l => e :: l)
    else list_regular_files rest

/-- The classification step of `get_dirs_with_music` once the regular files
of the directory are in hand (dir_contents.rs:128-147): partition into
music-classified and others, and — only when at least one music-classified
file exists — build the snapshot: metadata-less music files are dropped, the
survivors sorted by `MusicFile::sort_func`, the other bucket wrapped into
`OrdinaryFile`s.  `none`: no snapshot for this directory. -/
def snapshot_of (dir : DirEntry) (files : List FsDirEntry) : Option DirContents :=
  if 0 < (files.partition (fun e => e.is_music)).1.length then
    some
      { dir_entry := dir
        music_files :=
          List.insertionSort sortLe
            (((files.partition (fun e => e.is_music)).1.map MusicFile.new).filter
              (fun m => m.music_metadata.isSome))
        ordinary_files :=
          (files.partition (fun e => e.is_music)).2.map OrdinaryFile.new }
  else none

/-- The body of the `for dir in files_and_directories` loop of
`get_dirs_with_music` (dir_contents.rs:120-150) for one entry.  Outer `none`:
the loop body panicked; `some none`: no snapshot for this entry (not a
directory, `read_dir` failed, or no music-classified file); `some (some dc)`:
the snapshot pushed for this directory. -/
def process_dir (dir : DirEntry) : Option (Option DirContents) :=
  if dir.is_dir then
    match dir.readdir with
    | Except.error _ => some none
    | Except.ok entries => (list_regular_files entries).map (snapshot_of dir)
  else some none

/-- Function `get_dirs_with_music` (dir_contents.rs:117-153): fold the loop bodies in
order, pushing each produced snapshot; `none` models the scan dying in a
panic. -/
def get_dirs_with_music : List DirEntry → Option (List DirContents)
  | [] => some []
  | dir :: rest =>
    match process_dir dir with
    | none => none
    | some step =>
      match get_dirs_with_music rest with
      | none => none
      | some tail =>
        some (match step with
              | some dc => dc :: tail
              | none => tail)

/-- Function `get_list_of_dirs` (dir_contents.rs:96-114) applied to the raw `walkdir`
stream (modelled from the spec: `WalkDir::new(start_dir).contents_first(true)`
enumerates the tree contents-first; each item is `Ok(entry)` or a traversal
`Err`).  The stages of the source pipeline, fused:
`filter_entry(|e| e.file_type().is_dir())` keeps directory entries;
the error filter prints `"Error traversing directories: ..."` to the
diagnostic stream and drops the `Err`; the final `map(|e| e.unwrap())` is
then total.  Returns the surviving entries together with the emitted
diagnostic lines, both in stream order. -/
def get_list_of_dirs : List (Except String DirEntry) → List DirEntry × List String
  | [] => ([], [])
  | Except.ok d :: rest =>
    let r := get_list_of_dirs rest
    (if d.is_dir then d :: r.1 else r.1, r.2)
  | Except.error err :: rest =>
    let r := get_list_of_dirs rest
    (r.1, ("Error traversing directories: " ++ err) :: r.2)

/-- Constructor `DirContents::new` (dir_contents.rs:19-23): chain the traversal and the
per-directory classification.  `none` models a panic aborting the scan. -/
def DirContents.new (walk : List (Except String DirEntry)) : Option (List DirContents) :=
  get_dirs_with_music (get_list_of_dirs walk).1

/-- The diagnostic lines the scan writes while traversing (the only `eprintln`
of `dir_contents.rs` lives in `get_list_of_dirs`). -/
def scan_diagnostics (walk : List (Except String DirEntry)) : List String :=
  (get_list_of_dirs walk).2

/-- The condition under which `get_dirs_with_music` pushes a snapshot for an
entry: it is a directory, its `read_dir` succeeds, the per-entry reads all
succeed, and at least one regular file is classified as music. -/
def qualifies (dir : DirEntry) : Bool :=
  dir.is_dir &&
    match dir.readdir with
    | Except.error _ => false
    | Except.ok entries =>
      match list_regular_files entries with
      | none => false
      | some files => decide (0 < (files.filter (fun e => e.is_music)).length)

/-- The shape shared by `same_album_title` and `same_artists`: the first
element of the list when all elements equal it, else `none`. -/
def commonString : List String → Option String
  | [] => none
  | first :: rest =>
    if (first :: rest).all (fun s => s == first) then some first else none

theorem same_album_title_eq_commonString (self : DirContents) :
    self.same_album_title = commonString self.albums := by
  unfold DirContents.same_album_title commonString
  rfl

theorem same_artists_eq_commonString (self : DirContents) :
    self.same_artists = (commonString self.artists).isSome := by
  unfold DirContents.same_artists commonString
  cases self.artists with
  | nil => rfl
  | cons first rest =>
    by_cases hall : (first :: rest).all (fun s => s == first) = true
    · simp [hall]
    · simp [Bool.eq_false_iff.mpr hall]

theorem commonString_spec (l : List String) :
    (∀ a, commonString l = some a ↔ (l ≠ [] ∧ ∀ x ∈ l, x = a)) ∧
    (commonString l = none ↔ (l = [] ∨ ∃ x ∈ l, ∃ y ∈ l, x ≠ y)) := by
  cases l with
  | nil =>
    constructor
    · intro a
      simp [commonString]
    · simp [commonString]
  | cons first rest =>
    have hmemfirst : first ∈ first :: rest := by simp
    by_cases hall : ∀ x ∈ first :: rest, x = first
    · have hif : commonString (first :: rest) = some first := by
        show (if ((first :: rest).all fun s => s == first) = true
              then some first else none) = some first
        rw [if_pos (by simpa [List.all_eq_true] using hall)]
      constructor
      · intro a
        rw [hif]
        constructor
        · intro hsome
          have hfa : first = a := by injection hsome
          subst hfa
          exact ⟨by simp, hall⟩
        · rintro ⟨hne, hx⟩
          have hfa : first = a := hx first hmemfirst
          rw [hfa]
      · rw [hif]
        simp only [reduceCtorEq, false_iff, not_or]
        refine ⟨by simp, ?_⟩
        rintro ⟨x, hx, y, hy, hxy⟩
        exact hxy ((hall x hx).trans (hall y hy).symm)
    · have hif : commonString (first :: rest) = none := by
        show (if ((first :: rest).all fun s => s == first) = true
              then some first else none) = none
        rw [if_neg (fun hc => hall (by simpa [List.all_eq_true] using hc))]
      push_neg at hall
      obtain ⟨x, hxmem, hxne⟩ := hall
      constructor
      · intro a
        rw [hif]
        simp only [reduceCtorEq, false_iff, not_and]
        intro hne hx
        exact hxne ((hx x hxmem).trans (hx first hmemfirst).symm)
      · rw [hif]
        simp only [true_iff]
        exact Or.inr ⟨x, hxmem, first, hmemfirst, hxne⟩

/-- C2: `same_album_title` returns `some` of the common album string iff the
album list of the metadata-bearing music files is non-empty and every entry
equals that string (exact `String` equality); it returns `none` iff that list
is empty or two of its entries differ. -/
theorem same_album_title_spec (self : DirContents) :
    (∀ a, self.same_album_title = some a ↔
        (self.albums ≠ [] ∧ ∀ x ∈ self.albums, x = a)) ∧
    (self.same_album_title = none ↔
        (self.albums = [] ∨ ∃ x ∈ self.albums, ∃ y ∈ self.albums, x ≠ y)) := by
  rw [same_album_title_eq_commonString]
  exact commonString_spec self.albums

/-- C3: `same_artists` returns `true` iff at least one music file has metadata
present and all metadata-bearing music files carry the identical artist
string; it returns `false` when there is no metadata at all or two artists
differ. -/
theorem same_artists_spec (self : DirContents) :
    self.same_artists = true ↔
      (self.artists ≠ [] ∧ ∀ x ∈ self.artists, ∀ y ∈ self.artists, x = y) := by
  rw [same_artists_eq_commonString]
  obtain ⟨hsome, hnone⟩ := commonString_spec self.artists
  constructor
  · intro hs
    obtain ⟨a, ha⟩ := Option.isSome_iff_exists.mp hs
    obtain ⟨hne, hx⟩ := (hsome a).mp ha
    exact ⟨hne, fun x hxm y hym => (hx x hxm).trans (hx y hym).symm⟩
  · rintro ⟨hne, hxy⟩
    obtain ⟨first, rest, hl⟩ := List.exists_cons_of_ne_nil hne
    have hc : commonString self.artists = some first := by
      apply (hsome first).mpr
      refine ⟨hne, ?_⟩
      intro x hx
      exact hxy x hx first (by rw [hl]; simp)
    rw [hc]
    rfl


/-- The snapshot `get_dirs_with_music` pushes for a directory `dir` whose
regular immediate children are `files`, the two partition buckets written as
filters. -/
def mk_snapshot (dir : DirEntry) (files : List FsDirEntry) : DirContents :=
  { dir_entry := dir
    music_files :=
      List.insertionSort sortLe
        (((files.filter (fun e => e.is_music)).map MusicFile.new).filter
          (fun m => m.music_metadata.isSome))
    ordinary_files := (files.filter (fun e => !e.is_music)).map OrdinaryFile.new }

theorem snapshot_of_eq (dir : DirEntry) (files : List FsDirEntry) :
    snapshot_of dir files =
      if 0 < (files.filter (fun e => e.is_music)).length then
        some (mk_snapshot dir files)
      else none := by
  unfold snapshot_of mk_snapshot
  rw [List.partition_eq_filter_filter]
  rfl

theorem process_dir_of_not_dir {dir : DirEntry} (hd : dir.is_dir = false) :
    process_dir dir = some none := by
  unfold process_dir
  rw [hd]
  rfl

theorem process_dir_of_err {dir : DirEntry} {msg : String} (hd : dir.is_dir = true)
    (hr : dir.readdir = Except.error msg) :
    process_dir dir = some none := by
  unfold process_dir
  rw [hd, hr]
  rfl

theorem process_dir_of_ok {dir : DirEntry} {entries : List (Except String FsDirEntry)}
    (hd : dir.is_dir = true) (hr : dir.readdir = Except.ok entries) :
    process_dir dir = (list_regular_files entries).map (snapshot_of dir) := by
  unfold process_dir
  rw [hd, hr]
  rfl

theorem list_regular_files_err (msg : String) (tl : List (Except String FsDirEntry)) :
    list_regular_files (Except.error msg :: tl) = none := rfl

theorem list_regular_files_ok (e : FsDirEntry) (tl : List (Except String FsDirEntry)) :
    list_regular_files (Except.ok e :: tl) =
      if e.is_file then (list_regular_files tl).map (fun l => e :: l)
      else list_regular_files tl := rfl

theorem list_regular_files_is_file :
    ∀ {entries : List (Except String FsDirEntry)} {files : List FsDirEntry},
      list_regular_files entries = some files → ∀ e ∈ files, e.is_file = true := by
  intro entries
  induction entries with
  | nil =>
    intro files h e he
    obtain rfl : ([] : List FsDirEntry) = files := by injection h
    simp at he
  | cons hd tl ih =>
    intro files h e he
    match hd with
    | Except.error msg => rw [list_regular_files_err] at h; exact absurd h (by simp)
    | Except.ok entry =>
      rw [list_regular_files_ok] at h
      by_cases hfile : entry.is_file = true
      · rw [if_pos hfile] at h
        cases htl : list_regular_files tl with
        | none => rw [htl] at h; exact absurd h (by simp)
        | some tlfiles =>
          rw [htl] at h
          have hfl : files = entry :: tlfiles := by
            have h2 : entry :: tlfiles = files := by injection h
            exact h2.symm
          subst hfl
          rcases List.mem_cons.mp he with rfl | he2
          · exact hfile
          · exact ih htl e he2
      · rw [if_neg hfile] at h
        exact ih h e he

theorem snapshot_of_some_inv {dir : DirEntry} {files : List FsDirEntry} {dc : DirContents}
    (h : snapshot_of dir files = some dc) :
    0 < (files.filter (fun e => e.is_music)).length ∧ dc = mk_snapshot dir files := by
  rw [snapshot_of_eq] at h
  split at h
  · next hl =>
    refine ⟨hl, ?_⟩
    have h1 : mk_snapshot dir files = dc := by injection h
    exact h1.symm
  · exact absurd h (by simp)

theorem snapshot_of_none_inv {dir : DirEntry} {files : List FsDirEntry}
    (h : snapshot_of dir files = none) :
    (files.filter (fun e => e.is_music)).length = 0 := by
  rw [snapshot_of_eq] at h
  split at h
  · exact absurd h (by simp)
  · omega

theorem process_dir_some_inv {dir : DirEntry} {dc : DirContents}
    (h : process_dir dir = some (some dc)) :
    dir.is_dir = true ∧ ∃ entries files, dir.readdir = Except.ok entries ∧
      list_regular_files entries = some files ∧
      0 < (files.filter (fun e => e.is_music)).length ∧
      dc = mk_snapshot dir files := by
  cases hd : dir.is_dir with
  | false => rw [process_dir_of_not_dir hd] at h; exact absurd h (by simp)
  | true =>
    cases hr : dir.readdir with
    | error msg => rw [process_dir_of_err hd hr] at h; exact absurd h (by simp)
    | ok entries =>
      rw [process_dir_of_ok hd hr] at h
      cases hf : list_regular_files entries with
      | none => rw [hf] at h; exact absurd h (by simp)
      | some files =>
        rw [hf] at h
        simp only [Option.map_some'] at h
        have h1 : snapshot_of dir files = some dc := by injection h
        obtain ⟨hm, hdc⟩ := snapshot_of_some_inv h1
        exact ⟨rfl, entries, files, rfl, hf, hm, hdc⟩

theorem process_dir_push {dir : DirEntry} {entries : List (Except String FsDirEntry)}
    {files : List FsDirEntry} (hd : dir.is_dir = true)
    (hr : dir.readdir = Except.ok entries)
    (hf : list_regular_files entries = some files)
    (hm : 0 < (files.filter (fun e => e.is_music)).length) :
    process_dir dir = some (some (mk_snapshot dir files)) := by
  rw [process_dir_of_ok hd hr, hf]
  simp only [Option.map_some']
  rw [snapshot_of_eq, if_pos hm]

theorem process_dir_panic_iff {dir : DirEntry} :
    process_dir dir = none ↔
      dir.is_dir = true ∧ ∃ entries, dir.readdir = Except.ok entries ∧
        list_regular_files entries = none := by
  constructor
  · intro h
    cases hd : dir.is_dir with
    | false => rw [process_dir_of_not_dir hd] at h; exact absurd h (by simp)
    | true =>
      cases hr : dir.readdir with
      | error msg => rw [process_dir_of_err hd hr] at h; exact absurd h (by simp)
      | ok entries =>
        rw [process_dir_of_ok hd hr] at h
        cases hf : list_regular_files entries with
        | none => exact ⟨rfl, entries, rfl, hf⟩
        | some files => rw [hf] at h; exact absurd h (by simp)
  · rintro ⟨hd, entries, hr, hf⟩
    rw [process_dir_of_ok hd hr, hf]
    rfl

theorem qualifies_of_not_dir {dir : DirEntry} (hd : dir.is_dir = false) :
    qualifies dir = false := by
  unfold qualifies
  rw [hd]
  rfl

theorem qualifies_of_err {dir : DirEntry} {msg : String}
    (hr : dir.readdir = Except.error msg) : qualifies dir = false := by
  unfold qualifies
  rw [hr]
  simp

theorem qualifies_of_ok {dir : DirEntry} {entries : List (Except String FsDirEntry)}
    {files : List FsDirEntry} (hd : dir.is_dir = true)
    (hr : dir.readdir = Except.ok entries)
    (hf : list_regular_files entries = some files) :
    qualifies dir = decide (0 < (files.filter (fun e => e.is_music)).length) := by
  unfold qualifies
  rw [hd, hr]
  show (true &&
      match list_regular_files entries with
      | none => false
      | some fs => decide (0 < (fs.filter (fun e => e.is_music)).length)) =
    decide (0 < (files.filter (fun e => e.is_music)).length)
  rw [hf]
  rfl

theorem process_dir_qualifies {dir : DirEntry} {dc : DirContents}
    (h : process_dir dir = some (some dc)) :
    qualifies dir = true ∧ dc.dir_entry = dir := by
  obtain ⟨hd, entries, files, hr, hf, hm, hdc⟩ := process_dir_some_inv h
  constructor
  · rw [qualifies_of_ok hd hr hf]
    simpa using hm
  · rw [hdc]
    rfl

theorem process_dir_skip {dir : DirEntry} (h : process_dir dir = some none) :
    qualifies dir = false := by
  cases hd : dir.is_dir with
  | false => exact qualifies_of_not_dir hd
  | true =>
    cases hr : dir.readdir with
    | error msg => exact qualifies_of_err hr
    | ok entries =>
      rw [process_dir_of_ok hd hr] at h
      cases hf : list_regular_files entries with
      | none => rw [hf] at h; exact absurd h (by simp)
      | some files =>
        rw [hf] at h
        simp only [Option.map_some'] at h
        have h1 : snapshot_of dir files = none := by injection h
        have h0 := snapshot_of_none_inv h1
        rw [qualifies_of_ok hd hr hf]
        simpa using h0

theorem gdwm_cons_eq (dir : DirEntry) (rest : List DirEntry) :
    get_dirs_with_music (dir :: rest) =
      match process_dir dir with
      | none => none
      | some step =>
        match get_dirs_with_music rest with
        | none => none
        | some tail =>
          some (match step with
                | some dc => dc :: tail
                | none => tail) := rfl

theorem gdwm_panic {dir : DirEntry} (rest : List DirEntry)
    (h : process_dir dir = none) :
    get_dirs_with_music (dir :: rest) = none := by
  rw [gdwm_cons_eq, h]

theorem gdwm_skip {dir : DirEntry} (rest : List DirEntry)
    (h : process_dir dir = some none) :
    get_dirs_with_music (dir :: rest) = get_dirs_with_music rest := by
  rw [gdwm_cons_eq, h]
  cases get_dirs_with_music rest <;> rfl

theorem gdwm_push {dir : DirEntry} (rest : List DirEntry) {dc : DirContents}
    (h : process_dir dir = some (some dc)) :
    get_dirs_with_music (dir :: rest) =
      (get_dirs_with_music rest).map (fun tail => dc :: tail) := by
  rw [gdwm_cons_eq, h]
  cases get_dirs_with_music rest <;> rfl

theorem mem_get_dirs_with_music :
    ∀ {ds : List DirEntry} {out : List DirContents},
      get_dirs_with_music ds = some out →
      ∀ dc ∈ out, ∃ d ∈ ds, process_dir d = some (some dc) := by
  intro ds
  induction ds with
  | nil =>
    intro out h dc hdc
    have hout : ([] : List DirContents) = out := by injection h
    subst hout
    simp at hdc
  | cons d rest ih =>
    intro out h dc hdc
    cases hpd : process_dir d with
    | none => rw [gdwm_panic rest hpd] at h; exact absurd h (by simp)
    | some step =>
      cases step with
      | none =>
        rw [gdwm_skip rest hpd] at h
        obtain ⟨d2, hd2, hp2⟩ := ih h dc hdc
        exact ⟨d2, List.mem_cons_of_mem _ hd2, hp2⟩
      | some dc2 =>
        rw [gdwm_push rest hpd] at h
        cases hrest : get_dirs_with_music rest with
        | none => rw [hrest] at h; exact absurd h (by simp)
        | some tail =>
          rw [hrest] at h
          simp only [Option.map_some'] at h
          have hout : dc2 :: tail = out := by injection h
          subst hout
          rcases List.mem_cons.mp hdc with rfl | hmem
          · exact ⟨d, List.mem_cons_self d rest, hpd⟩
          · obtain ⟨d2, hd2, hp2⟩ := ih hrest dc hmem
            exact ⟨d2, List.mem_cons_of_mem _ hd2, hp2⟩

theorem get_dirs_with_music_map_dir :
    ∀ {ds : List DirEntry} {out : List DirContents},
      get_dirs_with_music ds = some out →
      out.map (fun s => s.dir_entry) = ds.filter qualifies := by
  intro ds
  induction ds with
  | nil =>
    intro out h
    have hout : ([] : List DirContents) = out := by injection h
    subst hout
    rfl
  | cons d rest ih =>
    intro out h
    cases hpd : process_dir d with
    | none => rw [gdwm_panic rest hpd] at h; exact absurd h (by simp)
    | some step =>
      cases step with
      | none =>
        rw [gdwm_skip rest hpd] at h
        rw [List.filter_cons, if_neg (by simp [process_dir_skip hpd])]
        exact ih h
      | some dc =>
        rw [gdwm_push rest hpd] at h
        cases hrest : get_dirs_with_music rest with
        | none => rw [hrest] at h; exact absurd h (by simp)
        | some tail =>
          rw [hrest] at h
          simp only [Option.map_some'] at h
          have hout : dc :: tail = out := by injection h
          subst hout
          obtain ⟨hq, hde⟩ := process_dir_qualifies hpd
          rw [List.filter_cons, if_pos (by simp [hq])]
          simp only [List.map_cons]
          rw [hde, ih hrest]

theorem gdwm_insert_skip {b : DirEntry} (hb : process_dir b = some none) :
    ∀ (l1 l2 : List DirEntry),
      get_dirs_with_music (l1 ++ b :: l2) = get_dirs_with_music (l1 ++ l2) := by
  intro l1
  induction l1 with
  | nil =>
    intro l2
    simpa using gdwm_skip l2 hb
  | cons d rest ih =>
    intro l2
    simp only [List.cons_append]
    rw [gdwm_cons_eq d (rest ++ b :: l2), gdwm_cons_eq d (rest ++ l2), ih l2]

theorem get_list_of_dirs_nil : get_list_of_dirs [] = ([], []) := rfl

theorem get_list_of_dirs_ok (d : DirEntry) (rest : List (Except String DirEntry)) :
    get_list_of_dirs (Except.ok d :: rest) =
      (if d.is_dir then d :: (get_list_of_dirs rest).1 else (get_list_of_dirs rest).1,
       (get_list_of_dirs rest).2) := rfl

theorem get_list_of_dirs_err (msg : String) (rest : List (Except String DirEntry)) :
    get_list_of_dirs (Except.error msg :: rest) =
      ((get_list_of_dirs rest).1,
       ("Error traversing directories: " ++ msg) :: (get_list_of_dirs rest).2) := rfl

theorem get_list_of_dirs_append (w1 w2 : List (Except String DirEntry)) :
    get_list_of_dirs (w1 ++ w2) =
      ((get_list_of_dirs w1).1 ++ (get_list_of_dirs w2).1,
       (get_list_of_dirs w1).2 ++ (get_list_of_dirs w2).2) := by
  induction w1 with
  | nil => simp [get_list_of_dirs_nil]
  | cons e rest ih =>
    cases e with
    | ok d =>
      simp only [List.cons_append, get_list_of_dirs_ok, ih]
      by_cases hd : d.is_dir = true <;> simp [hd]
    | error msg =>
      simp only [List.cons_append, get_list_of_dirs_err, ih]

/-! ### Concrete directories used as counterexamples and witnesses -/

def md_one : MusicMetadata :=
  { album := "Abbey Road", artist := "Beatles", track := some 1, title := some "Come Together" }

def md_two : MusicMetadata :=
  { album := "Abbey Road", artist := "Beatles", track := some 2, title := some "Something" }

def track_one : FsDirEntry :=
  { name := "01.mp3", is_file := true, is_music := true, metadata := some md_one }

def track_two : FsDirEntry :=
  { name := "02.mp3", is_file := true, is_music := true, metadata := some md_two }

def cover_jpg : FsDirEntry :=
  { name := "cover.jpg", is_file := true, is_music := false, metadata := none }

def sub_entry : FsDirEntry :=
  { name := "sub", is_file := false, is_music := false, metadata := none }

/-- An album directory: two music files (listed out of track order), one
ordinary file, one non-file child. -/
def album_dir : DirEntry :=
  { path := "/music/album", is_dir := true,
    readdir := Except.ok
      [Except.ok track_two, Except.ok cover_jpg, Except.ok track_one, Except.ok sub_entry] }

def album_snapshot : DirContents :=
  mk_snapshot album_dir [track_two, cover_jpg, track_one]

/-- A music-classified regular file whose metadata extraction fails. -/
def tagless_mp3 : FsDirEntry :=
  { name := "track.mp3", is_file := true, is_music := true, metadata := none }

/-- A directory whose only regular file is a music file without readable
tags. -/
def tagless_dir : DirEntry :=
  { path := "/music/tagless", is_dir := true,
    readdir := Except.ok [Except.ok tagless_mp3] }

def tagless_snapshot : DirContents :=
  mk_snapshot tagless_dir [tagless_mp3]

/-- A directory whose `read_dir` listing itself fails. -/
def read_err_dir : DirEntry :=
  { path := "/music/unreadable", is_dir := true,
    readdir := Except.error "permission denied" }

/-- A directory whose `read_dir` call succeeds but whose entry stream yields
one failing per-entry read. -/
def entry_err_dir : DirEntry :=
  { path := "/music/broken", is_dir := true,
    readdir := Except.ok [Except.error "transient read failure"] }

/-! ### The claims -/

/-- C1 (counterexample): `get_dirs_with_music` checks `music.len() > 0`
*before* dropping metadata-less music files, so a directory whose only
music-classified file has no extractable metadata is still emitted — with an
empty music-file list.  This refutes both the claimed "iff" (the directory
appears although metadata extraction succeeds for none of its files) and the
claimed non-emptiness of every emitted music-file list. -/
theorem tagless_dir_emitted_with_empty_music :
    get_dirs_with_music [tagless_dir] = some [tagless_snapshot] ∧
    tagless_snapshot.music_files = [] ∧
    tagless_dir.readdir = Except.ok [Except.ok tagless_mp3] ∧
    tagless_mp3.metadata = none := by
  refine ⟨rfl, rfl, rfl, rfl⟩

/-- C1 (amended): a directory appears in the output iff it occurs in the
scanned list and qualifies — it is a directory, `read_dir` succeeds with all
per-entry reads succeeding, and at least one regular file is classified as
music — regardless of whether metadata extraction succeeds for any of them;
the emitted music-file list may be empty. -/
theorem snapshot_emitted_iff_qualifies {ds : List DirEntry} {out : List DirContents}
    (h : get_dirs_with_music ds = some out) (d : DirEntry) :
    (∃ S ∈ out, S.dir_entry = d) ↔ (d ∈ ds ∧ qualifies d = true) := by
  have hmap := get_dirs_with_music_map_dir h
  constructor
  · rintro ⟨S, hS, rfl⟩
    have hmem : S.dir_entry ∈ out.map (fun s => s.dir_entry) :=
      List.mem_map_of_mem _ hS
    rw [hmap] at hmem
    exact List.mem_filter.mp hmem
  · rintro ⟨hmem, hq⟩
    have hmem2 : d ∈ ds.filter qualifies := List.mem_filter.mpr ⟨hmem, hq⟩
    rw [← hmap] at hmem2
    obtain ⟨S, hS, he⟩ := List.mem_map.mp hmem2
    exact ⟨S, hS, he⟩

theorem snapshot_emitted_iff_qualifies_witness :
    get_dirs_with_music [album_dir] = some [album_snapshot] ∧
    ((∃ S ∈ [album_snapshot], S.dir_entry = album_dir) ↔
      (album_dir ∈ [album_dir] ∧ qualifies album_dir = true)) :=
  ⟨rfl, @snapshot_emitted_iff_qualifies [album_dir] [album_snapshot] rfl album_dir⟩

/-- C4: in every emitted snapshot, every music file carries metadata
(`music_metadata` is `Some`), and the ordinary-file list consists exactly of
the wrappers of the regular files the music classifier rejected: every entry
of the list comes from such a file, and every such file appears in the
list. -/
theorem snapshot_bucket_invariants {ds : List DirEntry} {out : List DirContents}
    (h : get_dirs_with_music ds = some out) :
    ∀ S ∈ out,
      (∀ m ∈ S.music_files, m.music_metadata.isSome = true) ∧
      ∃ entries files, S.dir_entry.readdir = Except.ok entries ∧
        list_regular_files entries = some files ∧
        (∀ e ∈ files, e.is_file = true) ∧
        (∀ o ∈ S.ordinary_files, ∃ e ∈ files, e.is_music = false ∧ o = OrdinaryFile.new e) ∧
        (∀ e ∈ files, e.is_music = false → OrdinaryFile.new e ∈ S.ordinary_files) := by
  intro S hS
  obtain ⟨d, hd, hpd⟩ := mem_get_dirs_with_music h S hS
  obtain ⟨hdir, entries, files, hr, hf, hm, rfl⟩ := process_dir_some_inv hpd
  refine ⟨?_, entries, files, hr, hf, list_regular_files_is_file hf, ?_, ?_⟩
  · intro m hmem
    unfold mk_snapshot at hmem
    simp only at hmem
    rw [List.mem_insertionSort] at hmem
    exact (List.mem_filter.mp hmem).2
  · intro o ho
    unfold mk_snapshot at ho
    simp only at ho
    obtain ⟨e, he, rfl⟩ := List.mem_map.mp ho
    have hef := List.mem_filter.mp he
    exact ⟨e, hef.1, by simpa using hef.2, rfl⟩
  · intro e he hmus
    unfold mk_snapshot
    simp only
    exact List.mem_map_of_mem _ (List.mem_filter.mpr ⟨he, by simp [hmus]⟩)

theorem snapshot_bucket_invariants_witness :
    get_dirs_with_music [album_dir] = some [album_snapshot] ∧
    ((∀ m ∈ album_snapshot.music_files, m.music_metadata.isSome = true) ∧
     ∃ entries files, album_snapshot.dir_entry.readdir = Except.ok entries ∧
       list_regular_files entries = some files ∧
       (∀ e ∈ files, e.is_file = true) ∧
       (∀ o ∈ album_snapshot.ordinary_files, ∃ e ∈ files, e.is_music = false ∧
          o = OrdinaryFile.new e) ∧
       (∀ e ∈ files, e.is_music = false → OrdinaryFile.new e ∈ album_snapshot.ordinary_files)) :=
  ⟨rfl, @snapshot_bucket_invariants [album_dir] [album_snapshot] rfl album_snapshot (by simp)⟩

/-- C5 (code bug): the claim — faithful to §7's propagation policy — says no
filesystem error pattern can make the scan panic.  But the closure passed to
`filter` in `get_dirs_with_music` (dir_contents.rs:126) calls
`dir_entry.as_ref().unwrap()` on each per-entry `read_dir` result, so a
single failing per-entry read aborts the whole scan with a panic: on
`entry_err_dir` the model returns `none` (= panic) both for
`get_dirs_with_music` and for the full `DirContents::new` pipeline. -/
theorem scan_panics_on_entry_read_error :
    get_dirs_with_music [entry_err_dir] = none ∧
    DirContents.new [Except.ok entry_err_dir] = none := by
  refine ⟨rfl, rfl⟩

/-- C6: in every emitted snapshot the music-file list is sorted with respect
to `MusicFile::sort_func` (`sortLe m₁ m₂` is "`sort_func m₁ m₂` is not
`Greater`", the order `Vec::sort_by` establishes), and re-sorting the emitted
list with the same comparator leaves it unchanged. -/
theorem music_files_sorted_and_idempotent {ds : List DirEntry} {out : List DirContents}
    (h : get_dirs_with_music ds = some out) :
    ∀ S ∈ out, List.Sorted sortLe S.music_files ∧
      List.insertionSort sortLe S.music_files = S.music_files := by
  intro S hS
  obtain ⟨d, hd, hpd⟩ := mem_get_dirs_with_music h S hS
  obtain ⟨hdir, entries, files, hr, hf, hm, rfl⟩ := process_dir_some_inv hpd
  have hsorted : List.Sorted sortLe (mk_snapshot d files).music_files := by
    unfold mk_snapshot
    simp only
    exact List.sorted_insertionSort sortLe _
  exact ⟨hsorted, hsorted.insertionSort_eq⟩

theorem music_files_sorted_and_idempotent_witness :
    get_dirs_with_music [album_dir] = some [album_snapshot] ∧
    (List.Sorted sortLe album_snapshot.music_files ∧
     List.insertionSort sortLe album_snapshot.music_files = album_snapshot.music_files) :=
  ⟨rfl, @music_files_sorted_and_idempotent [album_dir] [album_snapshot] rfl album_snapshot (by simp)⟩

/-- C7: a directory whose immediate-children listing (`read_dir`) fails
produces no snapshot and no diagnostic line, while every other directory of
the walk is processed exactly as if the failing directory were absent: both
the diagnostics and the resulting snapshot list are unchanged (the drop is
silent and atomic). -/
theorem readdir_error_silent_atomic_drop {b : DirEntry} {msg : String}
    (hd : b.is_dir = true) (hr : b.readdir = Except.error msg)
    (walk1 walk2 : List (Except String DirEntry)) :
    scan_diagnostics (walk1 ++ Except.ok b :: walk2) = scan_diagnostics (walk1 ++ walk2) ∧
    DirContents.new (walk1 ++ Except.ok b :: walk2) = DirContents.new (walk1 ++ walk2) := by
  have hb : process_dir b = some none := process_dir_of_err hd hr
  have hfst : (get_list_of_dirs (Except.ok b :: walk2)).1 = b :: (get_list_of_dirs walk2).1 := by
    rw [get_list_of_dirs_ok]
    simp [hd]
  constructor
  · unfold scan_diagnostics
    rw [get_list_of_dirs_append, get_list_of_dirs_append, get_list_of_dirs_ok]
  · unfold DirContents.new
    rw [get_list_of_dirs_append, get_list_of_dirs_append, hfst]
    exact gdwm_insert_skip hb _ _

theorem readdir_error_silent_atomic_drop_witness :
    read_err_dir.is_dir = true ∧
    read_err_dir.readdir = Except.error "permission denied" ∧
    (scan_diagnostics
        ([Except.ok album_dir] ++ Except.ok read_err_dir :: [Except.error "walkfail"]) =
      scan_diagnostics ([Except.ok album_dir] ++ [Except.error "walkfail"]) ∧
     DirContents.new
        ([Except.ok album_dir] ++ Except.ok read_err_dir :: [Except.error "walkfail"]) =
      DirContents.new ([Except.ok album_dir] ++ [Except.error "walkfail"])) :=
  ⟨rfl, rfl,
    readdir_error_silent_atomic_drop rfl rfl [Except.ok album_dir] [Except.error "walkfail"]⟩

/-- C8: a traversal-level error in the walk stream produces exactly one
diagnostic line on the error stream, the failing item contributes nothing to
the directory list, and all items before and after it are processed
unchanged. -/
theorem traversal_error_logged_and_skipped (w1 w2 : List (Except String DirEntry))
    (msg : String) :
    get_list_of_dirs (w1 ++ Except.error msg :: w2) =
      ((get_list_of_dirs w1).1 ++ (get_list_of_dirs w2).1,
       (get_list_of_dirs w1).2 ++
         ("Error traversing directories: " ++ msg) :: (get_list_of_dirs w2).2) := by
  rw [get_list_of_dirs_append, get_list_of_dirs_err]

/-- C9: the emitted snapshot sequence follows the traversal enumeration
exactly — projecting each snapshot to its directory yields the walk's
directory list restricted to the qualifying directories, so no
cross-directory reordering is ever applied. -/
theorem output_follows_traversal_order {walk : List (Except String DirEntry)}
    {out : List DirContents} (h : DirContents.new walk = some out) :
    out.map (fun s => s.dir_entry) = ((get_list_of_dirs walk).1).filter qualifies :=
  get_dirs_with_music_map_dir h

theorem output_follows_traversal_order_witness :
    DirContents.new [Except.ok album_dir, Except.error "oops", Except.ok tagless_dir] =
      some [album_snapshot, tagless_snapshot] ∧
    ([album_snapshot, tagless_snapshot].map (fun s => s.dir_entry) =
      ((get_list_of_dirs
          [Except.ok album_dir, Except.error "oops", Except.ok tagless_dir]).1).filter
        qualifies) :=
  ⟨rfl, @output_follows_traversal_order [Except.ok album_dir, Except.error "oops", Except.ok tagless_dir] [album_snapshot, tagless_snapshot] rfl⟩

/-- C10: in every emitted snapshot the ordinary-file list is exactly the
enumeration-order list of the regular files the classifier rejected, each
wrapped by `OrdinaryFile::new` — no reordering, no sorting, nothing
dropped. -/
theorem ordinary_files_enumeration_order {ds : List DirEntry} {out : List DirContents}
    (h : get_dirs_with_music ds = some out) :
    ∀ S ∈ out, ∃ entries files, S.dir_entry.readdir = Except.ok entries ∧
      list_regular_files entries = some files ∧
      S.ordinary_files = (files.filter (fun e => !e.is_music)).map OrdinaryFile.new := by
  intro S hS
  obtain ⟨d, hd, hpd⟩ := mem_get_dirs_with_music h S hS
  obtain ⟨hdir, entries, files, hr, hf, hm, rfl⟩ := process_dir_some_inv hpd
  exact ⟨entries, files, hr, hf, rfl⟩

theorem ordinary_files_enumeration_order_witness :
    get_dirs_with_music [album_dir] = some [album_snapshot] ∧
    (∃ entries files, album_snapshot.dir_entry.readdir = Except.ok entries ∧
      list_regular_files entries = some files ∧
      album_snapshot.ordinary_files =
        (files.filter (fun e => !e.is_music)).map OrdinaryFile.new) :=
  ⟨rfl, @ordinary_files_enumeration_order [album_dir] [album_snapshot] rfl album_snapshot (by simp)⟩
